import Mathlib

/-!
Verification of the RMLSA-STATIC repository core against its specification.

This file shallowly embeds the spectrum/solution engine of the repository:

* `src/src/core/network.py` (`Network`: per-link occupancy, availability,
  allocation, deallocation, watermark),
* `src/src/core/spectrum.py` (`first_fit`, `calculate_watermark_increment`),
* `src/data/modulation.py` (`calculate_required_slots`),
* `src/src/algorithms/ksp_mw.py` (`ksp_mw_assign`),
* `src/src/core/solution.py` (`Solution.validate`, `Solution.calculate_fitness`),
* `src/src/metaheuristics/simulated_annealing.py` (neighbor operators),
* `src/algorithms.py` (`GeneticOptimizer.optimize`, ordering variant),
* `src/version_final/core.py` (the second `Network` variant with directed
  per-link arrays).

Python integers are embedded as `Int`/`Nat`; numpy boolean occupancy arrays as
`List Bool` (`true` = occupied); Python slice indexing (including negative
indices and clipping) is embedded explicitly.  Randomized choices made by the
metaheuristics are passed in as explicit parameters, so each operator is
embedded as its deterministic core.
-/

namespace RMLSA

/-- Python slice-endpoint normalization for an array of length `len`:
a negative index counts from the end (clamped below at 0), a non-negative
index is clamped above at `len`.  `Int.toNat` realizes the clamp at 0. -/
def pyIdx (len : Nat) (i : Int) : Nat :=
  if i < 0 then ((len : Int) + i).toNat else min i.toNat len

/-- Write `v` into positions `j` with `s ≤ j < e` of a list, where the head of
the list sits at absolute position `j0`. -/
def setRangeFrom (s e : Nat) (v : Bool) : Nat → List Bool → List Bool
  | _, [] => []
  | j, b :: t => (if s ≤ j ∧ j < e then v else b) :: setRangeFrom s e v (j + 1) t

/-- Embeds `arr[si:ei] = v` on a numpy boolean array, with Python slice semantics. -/
def pySetSlice (arr : List Bool) (si ei : Int) (v : Bool) : List Bool :=
  setRangeFrom (pyIdx arr.length si) (pyIdx arr.length ei) v 0 arr

/-- Is any position `j` with `s ≤ j < e` set, where the head of the list sits
at absolute position `j0`? -/
def anyRangeFrom (s e : Nat) : Nat → List Bool → Bool
  | _, [] => false
  | j, b :: t => ((decide (s ≤ j ∧ j < e)) && b) || anyRangeFrom s e (j + 1) t

/-- Embeds `np.any(arr[si:ei])` with Python slice semantics. -/
def pyAnySlice (arr : List Bool) (si ei : Int) : Bool :=
  anyRangeFrom (pyIdx arr.length si) (pyIdx arr.length ei) 0 arr

/-- Embeds `Network._get_link_key` (src/src/core/network.py): the link key is the
node pair sorted ascending, regardless of traversal direction. -/
def linkKey (u v : Nat) : Nat × Nat := (min u v, max u v)

/-- The consecutive node pairs of a path (`for i in range(len(path) - 1)`),
each normalized through `linkKey`. -/
def pathLinks (path : List Nat) : List (Nat × Nat) :=
  (path.zip path.tail).map fun p => linkKey p.1 p.2

/-- The `Network` of src/src/core/network.py: a set of undirected link keys,
a grid width, and one boolean occupancy array per link key
(`true` = occupied). -/
structure Network where
  links : List (Nat × Nat)
  numSlots : Nat
  spectrum : (Nat × Nat) → List Bool

/-- Embeds `Network.is_spectrum_available`: false when `start + count` exceeds the
grid width, otherwise true iff no slot of `[start, start+count)` is occupied
on any link of the path. -/
def isSpectrumAvailable (net : Network) (path : List Nat) (start count : Int) : Bool :=
  let endSlot := start + count
  if (net.numSlots : Int) < endSlot then false
  else (pathLinks path).all fun k => ! pyAnySlice (net.spectrum k) start endSlot

/-- The shared per-link loop of `allocate_spectrum` / `deallocate_spectrum`:
write `v` into `[start, endSlot)` of each link of the path. -/
def writeRange (net : Network) (path : List Nat) (start endSlot : Int) (v : Bool) : Network :=
  { net with
    spectrum := (pathLinks path).foldl
      (fun sp k => fun k2 => if k2 = k then pySetSlice (sp k) start endSlot v else sp k2)
      net.spectrum }

/-- Embeds `Network.allocate_spectrum`: re-check availability; on failure return
`false` without mutation, on success mark the block occupied on every link of
the path and return `true`. -/
def allocateSpectrum (net : Network) (path : List Nat) (start count : Int) : Bool × Network :=
  if isSpectrumAvailable net path start count then
    (true, writeRange net path start (start + count) true)
  else
    (false, net)

/-- Embeds `Network.deallocate_spectrum`: clear the block on every link of the path,
unconditionally (no availability check). -/
def deallocateSpectrum (net : Network) (path : List Nat) (start count : Int) : Network :=
  writeRange net path start (start + count) false

/-- Index of the last `true` in a list whose head sits at absolute position
`j0` (`np.where(slots)[0][-1]`), if any. -/
def lastTrueFrom : Nat → List Bool → Option Nat
  | _, [] => none
  | j, b :: t =>
    match lastTrueFrom (j + 1) t with
    | some i => some i
    | none => if b then some j else none

/-- Index of the last occupied slot of an occupancy array, if any. -/
def lastTrueIdx (arr : List Bool) : Option Nat := lastTrueFrom 0 arr

/-- Embeds `Network.get_max_watermark`: the maximum over all links of
(last occupied index + 1), and 0 when every link is free. -/
def getMaxWatermark (net : Network) : Nat :=
  net.links.foldl
    (fun m k =>
      match lastTrueIdx (net.spectrum k) with
      | some i => max m (i + 1)
      | none => m)
    0

/-- The scan of `first_fit` (src/src/core/spectrum.py): try positions
`s, s+1, ...` (`fuel` of them) and return the first available one. -/
def ffGo (avail : Nat → Bool) : Nat → Nat → Option Nat
  | _, 0 => none
  | s, fuel + 1 => if avail s then some s else ffGo avail (s + 1) fuel

/-- Embeds `first_fit(network, path, num_slots)`: scan start positions
`range(network.num_slots - num_slots + 1)` ascending and return the first
index where `is_spectrum_available` holds, else `None`.  The range length is
computed over `Int` so that `count > width` yields an empty scan, as in
Python. -/
def first_fit (net : Network) (path : List Nat) (count : Nat) : Option Nat :=
  ffGo (fun s => isSpectrumAvailable net path s count) 0
    ((net.numSlots : Int) - count + 1).toNat

/-- Embeds `calculate_watermark_increment` (src/src/core/spectrum.py): the watermark
that would result from assigning `count` slots on `path` by First-Fit, i.e.
`max(current grid watermark, first-fit start + count)`; `none` when First-Fit
finds no block.  The source reads the current watermark via
`network.get_max_slot_used()`; the Network class of src/src/core/network.py
provides that query under the name `get_max_watermark`, embedded here as
`getMaxWatermark`. -/
def calculate_watermark_increment (net : Network) (path : List Nat) (count : Nat) :
    Option Nat :=
  (first_fit net path count).map fun s => max (getMaxWatermark net) (s + count)

/-- The modulation table of src/data/modulation.py:
(name, max_reach_km, bits_per_symbol, slots_per_100Gbps). -/
def MODULATION_FORMATS : List (String × Nat × Nat × Nat) :=
  [("16-QAM", 500, 4, 2), ("8-QAM", 1000, 3, 3), ("QPSK", 2000, 2, 4), ("BPSK", 4000, 1, 8)]

/-- Embeds `get_modulation_format`: the first table entry whose reach covers the
distance, `none` when the distance exceeds every reach. -/
def getModulationFormat (dist : Nat) : Option (String × Nat × Nat × Nat) :=
  MODULATION_FORMATS.find? fun f => dist ≤ f.2.1

/-- Embeds `calculate_required_slots(bandwidth, distance)`:
`ceil(bandwidth / 100) * slots_per_100gbps + 2` (guard band of one slot on
each side), or `none` when unreachable.  `math.ceil(bw / 100.0)` over the
repository's integer bandwidths is exact in IEEE doubles, so it is embedded
as natural-number ceiling division. -/
def calculate_required_slots (bw dist : Nat) : Option (Nat × String) :=
  (getModulationFormat dist).map fun f => ((bw + 99) / 100 * f.2.2.2 + 2, f.1)

/-- Embeds `get_path_distance`: sum of the per-edge distances along consecutive node
pairs of the path.  The topology's edge-distance attribute is passed in as a
function, queried in the traversal order of the source loop. -/
def get_path_distance (edgeDist : Nat → Nat → Nat) (path : List Nat) : Nat :=
  (path.zip path.tail).foldl (fun d p => d + edgeDist p.1 p.2) 0

/-- The per-candidate evaluation of the `ksp_mw_assign` loop body: required
slot count from the path's modulation choice, then the resulting watermark of
a First-Fit placement; `none` when the path is skipped (unreachable modulation
or no spectrum). -/
def kspMwEval (net : Network) (edgeDist : Nat → Nat → Nat) (bw : Nat) (p : List Nat) :
    Option (Nat × Nat) :=
  match calculate_required_slots bw (get_path_distance edgeDist p) with
  | none => none
  | some (n, _) =>
    match calculate_watermark_increment net p n with
    | none => none
    | some w => some (n, w)

/-- One step of the `ksp_mw_assign` selection loop: keep the incumbent unless
the candidate's resulting watermark is strictly smaller
(`if new_watermark < best_watermark`, with the incumbent starting at
infinity, so the first feasible candidate is always adopted). -/
def kspMwStep (eval : List Nat → Option (Nat × Nat))
    (best : Option (List Nat × Nat × Nat)) (p : List Nat) :
    Option (List Nat × Nat × Nat) :=
  match eval p with
  | none => best
  | some (n, w) =>
    match best with
    | none => some (p, n, w)
    | some (bp, bn, bw2) => if w < bw2 then some (p, n, w) else some (bp, bn, bw2)

/-- The `ksp_mw_assign` selection loop over the ranked candidate paths. -/
def kspMwSelect (net : Network) (edgeDist : Nat → Nat → Nat) (bw : Nat)
    (paths : List (List Nat)) : Option (List Nat × Nat × Nat) :=
  paths.foldl (kspMwStep (kspMwEval net edgeDist bw)) none

/-- The assignment record returned by `ksp_mw_assign` (the fields the claims
are about: path, First-Fit start, slot count, resulting watermark). -/
structure MwAssignment where
  path : List Nat
  start_slot : Nat
  num_slots : Nat
  watermark : Nat
deriving DecidableEq, Repr

/-- Embeds `ksp_mw_assign` (src/src/algorithms/ksp_mw.py): evaluate the ranked
candidate paths, choose the one with minimal resulting watermark (first
encountered on ties), re-run First-Fit on the winner and allocate.  The
candidate list is the externally computed `get_k_shortest_paths` result,
passed in as a parameter. -/
def ksp_mw_assign (net : Network) (edgeDist : Nat → Nat → Nat) (bw : Nat)
    (paths : List (List Nat)) : Option MwAssignment × Network :=
  if paths.isEmpty then (none, net)
  else
    match kspMwSelect net edgeDist bw paths with
    | none => (none, net)
    | some (p, n, w) =>
      match first_fit net p n with
      | none => (none, net)
      | some s =>
        match allocateSpectrum net p s n with
        | (true, net2) => (some ⟨p, s, n, w⟩, net2)
        | (false, _) => (none, net)

/-- The `Network` of src/version_final/core.py: one occupancy array per
*directed* node pair — `__init__` creates separate arrays under the keys
`(u, v)` and `(v, u)` for every topology edge. -/
structure VFNetwork where
  dlinks : List (Nat × Nat)
  numSlots : Nat
  spectrum : (Nat × Nat) → List Bool

/-- Embeds `Network.is_path_free` (version_final): bounds check, then the directed
key of each traversal step must be free on `[start, start+count)`. -/
def VFNetwork.isPathFree (net : VFNetwork) (path : List Nat) (start count : Int) : Bool :=
  if (net.numSlots : Int) < start + count then false
  else (path.zip path.tail).all fun uv => ! pyAnySlice (net.spectrum uv) start (start + count)

/-- Embeds `Network.find_first_fit` (version_final): first index of
`range(num_slots - count + 1)` at which the path is free. -/
def VFNetwork.findFirstFit (net : VFNetwork) (path : List Nat) (count : Nat) : Option Nat :=
  ffGo (fun i => net.isPathFree path i count) 0 ((net.numSlots : Int) - count + 1).toNat

/-- Embeds `Network.allocate` (version_final): mark `[start, start+count)` occupied
on the *directed* key of every traversal step — no availability check, no
return value. -/
def VFNetwork.allocate (net : VFNetwork) (path : List Nat) (start count : Int) : VFNetwork :=
  { net with
    spectrum := (path.zip path.tail).foldl
      (fun sp uv => fun k2 => if k2 = uv then pySetSlice (sp uv) start (start + count) true else sp k2)
      net.spectrum }

/-- Embeds `Network.get_max_slot_used` (version_final): the highest occupied slot
*index* across all directed arrays, starting from `-1` (so `-1` when the grid
is empty). -/
def VFNetwork.getMaxSlotUsed (net : VFNetwork) : Int :=
  net.dlinks.foldl
    (fun m k =>
      match lastTrueIdx (net.spectrum k) with
      | some i => max m (i : Int)
      | none => m)
    (-1)

/-- A demand record: `{id, source, destination, bandwidth}` (bandwidths in the
repository are integers). -/
structure Demand where
  id : Nat
  source : Nat
  destination : Nat
  bandwidth : Nat
deriving DecidableEq, Repr, Inhabited

/-- The `Assignment` of src/src/core/solution.py: demand id, path, start slot
and slot count (`end_slot = start_slot + num_slots`, exclusive). -/
structure Assignment where
  demand_id : Nat
  path : List Nat
  start_slot : Int
  num_slots : Int
deriving DecidableEq, Repr

/-- The `Solution` of src/src/core/solution.py: a network, the demand list,
and one optional assignment per demand (index-aligned). -/
structure Solution where
  network : Network
  demands : List Demand
  assignments : List (Option Assignment)

/-- The validation errors recorded by `Solution.validate`, one constructor per
`errors.append` site, carrying the data the message interpolates. -/
inductive VErr where
  | pathTooShort (idx : Nat)
  | endpointMismatch (idx : Nat)
  | outOfBounds (idx : Nat)
  | linkMissing (idx : Nat) (link : Nat × Nat)
  | conflict (idx : Nat) (link : Nat × Nat) (slot : Nat) (others : List Nat)
deriving DecidableEq, Repr

/-- The running state of `Solution.validate`: the error list and the per-link,
per-slot occupant map (`spectrum_map`). -/
structure VState where
  errs : List VErr
  occ : (Nat × Nat) → Nat → List Nat

/-- One slot of the conflict scan: report a conflict if the slot already has
occupants, otherwise record this demand as its occupant. -/
def vSlotStep (idx : Nat) (k : Nat × Nat) (st : VState) (slot : Nat) : VState :=
  let cur := st.occ k slot
  if cur ≠ [] then { st with errs := st.errs ++ [.conflict idx k slot cur] }
  else { st with occ := fun k2 s2 => if k2 = k ∧ s2 = slot then cur ++ [idx] else st.occ k2 s2 }

/-- One link of the conflict scan: a missing-link error when the key is not in
the topology, otherwise scan every slot of `[start, endS)`. -/
def vLinkStep (net : Network) (idx start endS : Nat) (st : VState) (uv : Nat × Nat) : VState :=
  let k := linkKey uv.1 uv.2
  if k ∉ net.links then { st with errs := st.errs ++ [.linkMissing idx k] }
  else (List.range' start (endS - start)).foldl (vSlotStep idx k) st

/-- One assignment of `Solution.validate`: path-length check (skipping the
rest on failure), endpoint check (recording but continuing), slot-bounds check
(skipping the conflict scan on failure), then the per-link conflict scan. -/
def vAssignStep (net : Network) (demands : List Demand) (st : VState)
    (p : Nat × Option Assignment) : VState :=
  match p with
  | (_, none) => st
  | (idx, some a) =>
    let d := demands.getD idx default
    if a.path.length < 2 then { st with errs := st.errs ++ [.pathTooShort idx] }
    else
      let st1 :=
        if a.path.headD 0 ≠ d.source ∨ a.path.getLastD 0 ≠ d.destination then
          { st with errs := st.errs ++ [.endpointMismatch idx] }
        else st
      if a.start_slot < 0 ∨ (net.numSlots : Int) < a.start_slot + a.num_slots then
        { st1 with errs := st1.errs ++ [.outOfBounds idx] }
      else
        (a.path.zip a.path.tail).foldl
          (vLinkStep net idx a.start_slot.toNat (a.start_slot + a.num_slots).toNat) st1

/-- Embeds `Solution.validate`: rebuild a fresh per-link slot-occupancy map and
replay every assignment in index order, returning the recorded errors. -/
def validate (sol : Solution) : List VErr :=
  (sol.assignments.enum.foldl (vAssignStep sol.network sol.demands)
    ⟨[], fun _ _ => []⟩).errs

/-- Embeds `Solution.get_assigned_count`: the number of non-null assignments. -/
def assignedCount (assigns : List (Option Assignment)) : Nat :=
  (assigns.filter Option.isSome).length

/-- The Python float values `Solution.calculate_fitness` produces: a finite
(integer-valued, exactly representable) number or `+inf`. -/
inductive PyFloat where
  | fin (x : Int)
  | inf
deriving DecidableEq, Repr

/-- IEEE double subtraction as it occurs in `calculate_fitness`:
`inf - x = inf` for every finite `x`, and exact subtraction of the small
integers involved otherwise. -/
def PyFloat.sub : PyFloat → Int → PyFloat
  | .inf, _ => .inf
  | .fin a, b => .fin (a - b)

/-- Embeds `Solution.calculate_fitness`: `inf` when invalid; when valid but
incomplete, the source computes
`float('inf') - (len(self.demands) - unassigned_count)`, i.e. `inf` minus the
assigned count; when valid and complete,
`max end_slot * 1000 + sum of num_slots * (path length - 1)`. -/
def calculate_fitness (sol : Solution) : PyFloat :=
  if validate sol ≠ [] then .inf
  else
    let assigned := assignedCount sol.assignments
    if assigned < sol.demands.length then PyFloat.sub .inf (assigned : Int)
    else
      let maxSlot := sol.assignments.foldl
        (fun m a? => match a? with
          | some a => max m (a.start_slot + a.num_slots)
          | none => m) 0
      let total := sol.assignments.foldl
        (fun t a? => match a? with
          | some a => t + a.num_slots * ((a.path.length : Int) - 1)
          | none => t) 0
      .fin (maxSlot * 1000 + total)

/-- Embeds `Solution.set_assignment`: overwrite one entry of the assignment list. -/
def setAssignment (sol : Solution) (idx : Nat) (a? : Option Assignment) : Solution :=
  { sol with assignments := sol.assignments.set idx a? }

/-- The `assigned_indices` list every SA neighbor operator starts from:
`[i for i, a in enumerate(solution.assignments) if a is not None]`. -/
def assignedIndices (sol : Solution) : List Nat :=
  (sol.assignments.enum.filter fun p => p.2.isSome).map Prod.fst

/-- Embeds `self.network.__class__(topology, num_slots)`: a fresh all-free grid over
the same topology. -/
def freshNetwork (net : Network) : Network :=
  ⟨net.links, net.numSlots, fun _ => List.replicate net.numSlots false⟩

/-- The scratch-grid rebuild shared by the SA neighbor operators: allocate
every assignment except the excluded index into a fresh grid (the result of
each `allocate_spectrum` call is ignored by the source). -/
def buildTempNetwork (net : Network) (assigns : List (Option Assignment)) (excl : Nat) :
    Network :=
  assigns.enum.foldl
    (fun tn p =>
      match p with
      | (i, some a) =>
        if i ≠ excl then (allocateSpectrum tn a.path a.start_slot a.num_slots).2 else tn
      | (_, none) => tn)
    (freshNetwork net)

/-- The scratch-grid rebuild of `_neighbor_swap_assignments`, excluding two
indices. -/
def buildTempNetwork2 (net : Network) (assigns : List (Option Assignment)) (e1 e2 : Nat) :
    Network :=
  assigns.enum.foldl
    (fun tn p =>
      match p with
      | (i, some a) =>
        if i ≠ e1 ∧ i ≠ e2 then (allocateSpectrum tn a.path a.start_slot a.num_slots).2 else tn
      | (_, none) => tn)
    (freshNetwork net)

/-- Embeds `SimulatedAnnealing._calculate_num_slots`: slot count for a demand on a
path, from the path distance and the modulation table. -/
def calcNumSlots (edgeDist : Nat → Nat → Nat) (path : List Nat) (bw : Nat) : Option Nat :=
  (calculate_required_slots bw (get_path_distance edgeDist path)).map Prod.fst

/-- The index `random.choice(assigned_indices)` picks in
`_neighbor_change_route`, with the random draw `r1` passed in. -/
def crIdx (sol : Solution) (r1 : Nat) : Nat :=
  let ai := assignedIndices sol
  ai.getD (r1 % ai.length) 0

/-- The path `random.choice(other_paths)` picks in `_neighbor_change_route`,
with the random draw `r2` passed in. -/
def crNewPath (cand : Nat → List (List Nat)) (sol : Solution) (r1 r2 : Nat) : List Nat :=
  match sol.assignments.getD (crIdx sol r1) none with
  | none => []
  | some a =>
    let other := (cand (crIdx sol r1)).filter fun p => p ≠ a.path
    other.getD (r2 % other.length) []

/-- Embeds `SimulatedAnnealing._neighbor_change_route`, with the two random draws
passed in: pick an assigned demand and a different candidate path, rebuild a
scratch grid from the other assignments, unassign the demand, then assign it
on the new path at the first available start (the source's ascending scan is
`first_fit` on the scratch grid); when the modulation lookup or the scan
fails, the demand is left unassigned. -/
def neighborChangeRoute (net : Network) (edgeDist : Nat → Nat → Nat)
    (cand : Nat → List (List Nat)) (demands : List Demand) (sol : Solution)
    (r1 r2 : Nat) : Solution :=
  let ai := assignedIndices sol
  if ai.isEmpty then sol
  else
    let idx := ai.getD (r1 % ai.length) 0
    let paths := cand idx
    if paths.length ≤ 1 then sol
    else
      match sol.assignments.getD idx none with
      | none => sol
      | some a =>
        let other := paths.filter fun p => p ≠ a.path
        if other.isEmpty then sol
        else
          let newPath := other.getD (r2 % other.length) []
          let temp := buildTempNetwork net sol.assignments idx
          let sol1 := setAssignment sol idx none
          match calcNumSlots edgeDist newPath (demands.getD idx default).bandwidth with
          | none => sol1
          | some n =>
            match first_fit temp newPath n with
            | none => sol1
            | some s => setAssignment sol1 idx (some ⟨idx, newPath, (s : Int), (n : Int)⟩)

/-- Embeds `SimulatedAnnealing._neighbor_reassign`, with the two random draws passed
in: pick any demand index (`random.randint(0, len(demands) - 1)`), rebuild a
scratch grid from the other assignments, unassign the demand, pick a random
candidate path and assign at the first available start; when no candidate
path exists, the modulation lookup fails, or the scan fails, the demand is
left unassigned.  (The source also allocates the winner on the discarded
scratch grid; that has no effect on the returned solution.) -/
def neighborReassign (net : Network) (edgeDist : Nat → Nat → Nat)
    (cand : Nat → List (List Nat)) (demands : List Demand) (sol : Solution)
    (r1 r2 : Nat) : Solution :=
  let idx := r1 % demands.length
  let temp := buildTempNetwork net sol.assignments idx
  let sol1 := setAssignment sol idx none
  let paths := cand idx
  if paths.isEmpty then sol1
  else
    let path := paths.getD (r2 % paths.length) []
    match calcNumSlots edgeDist path (demands.getD idx default).bandwidth with
    | none => sol1
    | some n =>
      match first_fit temp path n with
      | none => sol1
      | some s => setAssignment sol1 idx (some ⟨idx, path, (s : Int), (n : Int)⟩)

/-- The two distinct indices `random.sample(assigned_indices, 2)` picks in
`_neighbor_swap_assignments`: the first uniformly, the second from the
remaining indices, with the random draws passed in. -/
def swapChosen (sol : Solution) (p1 p2 : Nat) : Nat × Nat :=
  let ai := assignedIndices sol
  let q1 := p1 % ai.length
  (ai.getD q1 0, (ai.eraseIdx q1).getD (p2 % (ai.length - 1)) 0)

/-- The feasibility test of `_neighbor_swap_assignments`: both demands'
blocks, at each other's start slots, are available on the scratch grid
rebuilt without the two demands. -/
def swapOk (net : Network) (sol : Solution) (i1 i2 : Nat) : Bool :=
  match sol.assignments.getD i1 none, sol.assignments.getD i2 none with
  | some a1, some a2 =>
    let temp := buildTempNetwork2 net sol.assignments i1 i2
    isSpectrumAvailable temp a1.path a2.start_slot a1.num_slots &&
      isSpectrumAvailable temp a2.path a1.start_slot a2.num_slots
  | _, _ => false

/-- The commit of `_neighbor_swap_assignments`: exchange the two start
slots, keeping each demand's path and slot count. -/
def swapCommit (sol : Solution) (i1 i2 : Nat) : Solution :=
  match sol.assignments.getD i1 none, sol.assignments.getD i2 none with
  | some a1, some a2 =>
    setAssignment (setAssignment sol i1 (some ⟨i1, a1.path, a2.start_slot, a1.num_slots⟩))
      i2 (some ⟨i2, a2.path, a1.start_slot, a2.num_slots⟩)
  | _, _ => sol

/-- Embeds `SimulatedAnnealing._neighbor_swap_assignments`, with the two random
draws passed in: needs at least two assigned demands with equal slot counts;
commits the swap only when both availability checks pass, otherwise leaves
the solution untouched. -/
def neighborSwapAssignments (net : Network) (sol : Solution) (p1 p2 : Nat) : Solution :=
  let ai := assignedIndices sol
  if ai.length < 2 then sol
  else
    let i1 := (swapChosen sol p1 p2).1
    let i2 := (swapChosen sol p1 p2).2
    match sol.assignments.getD i1 none, sol.assignments.getD i2 none with
    | some a1, some a2 =>
      if a1.num_slots ≠ a2.num_slots then sol
      else if swapOk net sol i1 i2 then swapCommit sol i1 i2 else sol
    | _, _ => sol

/-- Insert a `(distance, index)` pair into a list sorted in descending
lexicographic order. -/
def insertDescLex (p : Nat × Nat) : List (Nat × Nat) → List (Nat × Nat)
  | [] => [p]
  | q :: t =>
    if q.1 < p.1 ∨ (q.1 = p.1 ∧ q.2 < p.2) then p :: q :: t else q :: insertDescLex p t

/-- Embeds `sorted(zip(dists, indices), reverse=True)`: Python sorts the pairs in
descending lexicographic order; the indices are distinct, so the order is
unique and any correct sort yields it. -/
def sortDescLex (l : List (Nat × Nat)) : List (Nat × Nat) :=
  l.foldr insertDescLex []

/-- The LPF master seed of `GeneticOptimizer.optimize` (src/algorithms.py):
each demand's first cached path distance (0 when no path), the
`(distance, index)` pairs sorted descending, and the indices extracted. -/
def lpfChrome (edgeDist : Nat → Nat → Nat) (cache : Nat × Nat → List (List Nat))
    (demands : List Demand) : List Nat :=
  let indices := List.range demands.length
  let dists := indices.map fun i =>
    let d := demands.getD i default
    match (cache (d.source, d.destination)).head? with
    | some p => get_path_distance edgeDist p
    | none => 0
  (sortDescLex (dists.zip indices)).map Prod.snd

/-- Embeds `GeneticOptimizer._mutate_swap` with the two sampled positions passed
in. -/
def mutateSwapChrome (c : List Nat) (i j : Nat) : List Nat :=
  (c.set i (c.getD j 0)).set j (c.getD i 0)

/-- Embeds `GeneticOptimizer._mutate_shift_priority` with the sampled position
passed in: pop the element and reinsert it at the front. -/
def mutateShiftPriority (c : List Nat) (idx : Nat) : List Nat :=
  c.getD idx 0 :: c.eraseIdx idx

/-- Embeds `GeneticOptimizer._mutate_scramble` with the sampled slice bounds and the
shuffle outcome (an arbitrary rearrangement function standing for
`rng.shuffle`) passed in. -/
def mutateScrambleChrome (c : List Nat) (a b : Nat) (shuf : List Nat → List Nat) : List Nat :=
  c.take a ++ shuf ((c.drop a).take (b - a)) ++ c.drop b

/-- One random mutation decision of the population initializer: which
operator the draw of `rng.random()` selects, together with its sampled
parameters. -/
inductive MutChoice where
  | swap (i j : Nat)
  | scramble (a b : Nat) (shuf : List Nat → List Nat)
  | shiftPriority (idx : Nat)

/-- Apply one mutation decision to a chromosome. -/
def applyMut : MutChoice → List Nat → List Nat
  | .swap i j, c => mutateSwapChrome c i j
  | .scramble a b f, c => mutateScrambleChrome c a b f
  | .shiftPriority i, c => mutateShiftPriority c i

/-- The population initializer of `GeneticOptimizer.optimize`: the LPF seed
followed by `pop_size - 1` mutated clones of it, the `k`-th clone's random
mutation given by `choice k`. -/
def initPopulation (lpf : List Nat) (popSize : Nat) (choice : Nat → MutChoice) :
    List (List Nat) :=
  lpf :: (List.range (popSize - 1)).map fun k => applyMut (choice k) lpf

/-- Embeds `GeneticOptimizer.optimize` (src/algorithms.py) specialized to
`generations = 0`, the case claim C9 is about: the LPF seed and the initial
population are built, `best_chrome` is initialized to `None`, and the
evolution loop `for gen in range(self.generations)` — the only code that ever
assigns `best_chrome` — executes no iteration.  The final replay then
evaluates `[self.demands[i] for i in best_chrome]`, which raises `TypeError`
on `None`; the embedding returns that outcome as `Except.error`.  (The
subsequent `run_sp_ff` call is never reached in this case and is not
modelled.) -/
def gaOptimizeGen0 (edgeDist : Nat → Nat → Nat) (cache : Nat × Nat → List (List Nat))
    (demands : List Demand) (popSize : Nat) (choice : Nat → MutChoice) :
    Except String (List Demand) :=
  let lpf := lpfChrome edgeDist cache demands
  let _pop := initPopulation lpf popSize choice
  let bestChrome : Option (List Nat) := none
  match bestChrome with
  | none => .error "TypeError: NoneType object is not iterable"
  | some bc => .ok (bc.map fun i => demands.getD i default)

/-- Concrete grid for claim C10: one link, four slots, every slot occupied. -/
def exNetC10 : Network :=
  ⟨[(0, 1)], 4, fun k => if k = (0, 1) then [true, true, true, true] else []⟩

/-- Concrete grid for claim C6: one link, two slots, slot 0 occupied. -/
def exNetC6 : Network :=
  ⟨[(0, 1)], 2, fun k => if k = (0, 1) then [true, false] else []⟩

/-- Concrete version_final grid with slot 0 of the directed link `(0, 1)`
occupied and the opposite direction free. -/
def exVF : VFNetwork :=
  ⟨[(0, 1), (1, 0)], 2, fun k =>
    if k = (0, 1) then [true, false] else if k = (1, 0) then [false, false] else []⟩

/-- Concrete empty version_final grid on the same directed links. -/
def exVFempty : VFNetwork :=
  ⟨[(0, 1), (1, 0)], 2, fun k =>
    if k = (0, 1) ∨ k = (1, 0) then [false, false] else []⟩

/-- Concrete network for claim C1: one link, eight slots, all free (the
fitness computation never reads the occupancy). -/
def exNetC1 : Network :=
  ⟨[(0, 1)], 8, fun _ => List.replicate 8 false⟩

/-- Two demands between nodes 0 and 1 for claim C1. -/
def exDemandsC1 : List Demand := [⟨0, 0, 1, 100⟩, ⟨1, 0, 1, 100⟩]

/-- Claim C1: a valid but incomplete solution (demand 0 assigned, demand 1
not). -/
def exSolA : Solution :=
  ⟨exNetC1, exDemandsC1, [some ⟨0, [0, 1], 0, 2⟩, none]⟩

/-- Claim C1: the empty solution over the same demands (valid, 0 assigned). -/
def exSolB : Solution :=
  ⟨exNetC1, exDemandsC1, [none, none]⟩

/-- Concrete network for claim C2: triangle topology, eight slots, all
free. -/
def exNetC2 : Network :=
  ⟨[(0, 1), (0, 2), (1, 2)], 8, fun _ => List.replicate 8 false⟩

/-- Edge distances for claim C2: the direct edge `{0, 2}` is 100 km, the
detour edges are 3000 km each, so the detour path is beyond every modulation
reach. -/
def exEdgeDistC2 (u v : Nat) : Nat :=
  if (u, v) = (0, 2) ∨ (u, v) = (2, 0) then 100 else 3000

/-- The single demand of claim C2's counterexample. -/
def exDemandsC2 : List Demand := [⟨0, 0, 2, 100⟩]

/-- Candidate paths for claim C2: the direct path and the detour. -/
def exCandC2 (i : Nat) : List (List Nat) :=
  if i = 0 then [[0, 2], [0, 1, 2]] else []

/-- Claim C2: the demand assigned on the direct path. -/
def exSolC2 : Solution :=
  ⟨exNetC2, exDemandsC2, [some ⟨0, [0, 2], 0, 4⟩]⟩

/-- Concrete network for claims C3/C4's witnesses: triangle topology, six
slots, all free. -/
def exNetC3 : Network :=
  ⟨[(0, 1), (1, 2), (0, 2)], 6, fun _ => List.replicate 6 false⟩

/-! ### Lemmas about the slice primitives -/

theorem setRangeFrom_length (s e : Nat) (v : Bool) :
    ∀ (j : Nat) (arr : List Bool), (setRangeFrom s e v j arr).length = arr.length := by
  intro j arr
  induction arr generalizing j with
  | nil => rfl
  | cons b t ih => simp [setRangeFrom, ih]

theorem setRangeFrom_getD (s e : Nat) (v : Bool) :
    ∀ (arr : List Bool) (j i : Nat),
      (setRangeFrom s e v j arr).getD i false =
        if i < arr.length ∧ s ≤ j + i ∧ j + i < e then v else arr.getD i false := by
  intro arr
  induction arr with
  | nil => intro j i; simp [setRangeFrom]
  | cons b t ih =>
    intro j i
    cases i with
    | zero => simp [setRangeFrom]
    | succ i2 =>
      simp only [setRangeFrom, List.getD_cons_succ, List.length_cons]
      rw [ih]
      have harith : j + 1 + i2 = j + (i2 + 1) := by omega
      rw [harith]
      simp only [Nat.add_lt_add_iff_right]

theorem anyRangeFrom_eq_true (s e : Nat) :
    ∀ (arr : List Bool) (j : Nat),
      anyRangeFrom s e j arr = true ↔
        ∃ i, i < arr.length ∧ s ≤ j + i ∧ j + i < e ∧ arr.getD i false = true := by
  intro arr
  induction arr with
  | nil => intro j; simp [anyRangeFrom]
  | cons b t ih =>
    intro j
    simp only [anyRangeFrom, Bool.or_eq_true, Bool.and_eq_true, decide_eq_true_eq, ih]
    constructor
    · rintro (⟨hr, hb⟩ | ⟨i, hi, h1, h2, hv⟩)
      · exact ⟨0, by simp, by simpa using hr.1, by simpa using hr.2, by simpa using hb⟩
      · exact ⟨i + 1, by simp; omega, by omega, by omega, by simpa using hv⟩
    · rintro ⟨i, hi, h1, h2, hv⟩
      cases i with
      | zero => left; simp_all
      | succ i2 =>
        right
        exact ⟨i2, by simp at hi; omega, by omega, by omega, by simpa using hv⟩

theorem list_ext_getD (a b : List Bool) (hlen : a.length = b.length)
    (h : ∀ i, a.getD i false = b.getD i false) : a = b := by
  induction a generalizing b with
  | nil => cases b with
    | nil => rfl
    | cons y t => simp at hlen
  | cons x t ih =>
    cases b with
    | nil => simp at hlen
    | cons y u =>
      have h0 := h 0
      simp only [List.getD_cons_zero] at h0
      subst h0
      have ht : t = u := by
        apply ih
        · simpa using hlen
        · intro i; simpa using h (i + 1)
      rw [ht]

theorem pySetSlice_length (arr : List Bool) (si ei : Int) (v : Bool) :
    (pySetSlice arr si ei v).length = arr.length := by
  simp [pySetSlice, setRangeFrom_length]

theorem pySetSlice_getD (arr : List Bool) (si ei : Int) (v : Bool) (i : Nat) :
    (pySetSlice arr si ei v).getD i false =
      if i < arr.length ∧ pyIdx arr.length si ≤ i ∧ i < pyIdx arr.length ei then v
      else arr.getD i false := by
  simp only [pySetSlice]
  rw [setRangeFrom_getD]
  simp only [Nat.zero_add]

theorem pySetSlice_idem (arr : List Bool) (si ei : Int) (v : Bool) :
    pySetSlice (pySetSlice arr si ei v) si ei v = pySetSlice arr si ei v := by
  apply list_ext_getD
  · simp [pySetSlice_length]
  · intro i
    simp only [pySetSlice_getD, pySetSlice_length]
    split <;> simp_all

theorem pySetSlice_empty (arr : List Bool) (si ei : Int) (v : Bool)
    (h : pyIdx arr.length ei ≤ pyIdx arr.length si) : pySetSlice arr si ei v = arr := by
  apply list_ext_getD
  · simp [pySetSlice_length]
  · intro i
    rw [pySetSlice_getD]
    split
    · omega
    · rfl

theorem pySetSlice_cancel (arr : List Bool) (si ei : Int)
    (h : ∀ i, i < arr.length → pyIdx arr.length si ≤ i → i < pyIdx arr.length ei →
      arr.getD i false = false) :
    pySetSlice (pySetSlice arr si ei true) si ei false = arr := by
  apply list_ext_getD
  · simp [pySetSlice_length]
  · intro i
    simp only [pySetSlice_getD, pySetSlice_length]
    split
    · rename_i hc
      exact (h i hc.1 hc.2.1 hc.2.2).symm
    · rfl

theorem pyAnySlice_eq_false (arr : List Bool) (si ei : Int) :
    pyAnySlice arr si ei = false ↔
      ∀ i, i < arr.length → pyIdx arr.length si ≤ i → i < pyIdx arr.length ei →
        arr.getD i false = false := by
  rw [← Bool.not_eq_true, pyAnySlice, anyRangeFrom_eq_true]
  simp only [Nat.zero_add]
  constructor
  · intro h i h1 h2 h3
    by_contra hv
    exact h ⟨i, h1, h2, h3, by simpa using hv⟩
  · rintro h ⟨i, h1, h2, h3, hv⟩
    rw [h i h1 h2 h3] at hv
    exact Bool.false_ne_true hv

theorem foldl_update_lookup (f : List Bool → List Bool) (hf : ∀ a, f (f a) = f a)
    (keys : List (Nat × Nat)) :
    ∀ (sp : (Nat × Nat) → List Bool) (k : Nat × Nat),
      (keys.foldl (fun m kk => fun k2 => if k2 = kk then f (m kk) else m k2) sp) k =
        if k ∈ keys then f (sp k) else sp k := by
  induction keys with
  | nil => intro sp k; simp
  | cons kk t ih =>
    intro sp k
    simp only [List.foldl_cons, ih, List.mem_cons]
    by_cases hk : k = kk
    · subst hk
      by_cases hm : k ∈ t <;> simp [hm, hf]
    · by_cases hm : k ∈ t <;> simp [hm, hk]

theorem writeRange_spectrum (net : Network) (path : List Nat) (start endSlot : Int)
    (v : Bool) (k : Nat × Nat) :
    (writeRange net path start endSlot v).spectrum k =
      if k ∈ pathLinks path then pySetSlice (net.spectrum k) start endSlot v
      else net.spectrum k := by
  exact foldl_update_lookup (fun a => pySetSlice a start endSlot v)
    (fun a => pySetSlice_idem a start endSlot v) (pathLinks path) net.spectrum k

theorem vfAllocate_spectrum (net : VFNetwork) (path : List Nat) (start count : Int)
    (k : Nat × Nat) :
    (VFNetwork.allocate net path start count).spectrum k =
      if k ∈ path.zip path.tail then pySetSlice (net.spectrum k) start (start + count) true
      else net.spectrum k := by
  exact foldl_update_lookup (fun a => pySetSlice a start (start + count) true)
    (fun a => pySetSlice_idem a start (start + count) true) (path.zip path.tail) net.spectrum k

/-! ### Lemmas about availability, the First-Fit scan and the watermark -/

theorem isSpectrumAvailable_eq_true (net : Network) (path : List Nat) (s c : Int) :
    isSpectrumAvailable net path s c = true ↔
      s + c ≤ (net.numSlots : Int) ∧
        ∀ k ∈ pathLinks path, pyAnySlice (net.spectrum k) s (s + c) = false := by
  simp only [isSpectrumAvailable]
  split
  · rename_i hb
    simp only [Bool.false_eq_true, false_iff]
    intro hcon
    omega
  · rename_i hb
    push_neg at hb
    simp only [List.all_eq_true, Bool.not_eq_true']
    exact ⟨fun h => ⟨hb, h⟩, fun h => h.2⟩

theorem isSpectrumAvailable_bound (net : Network) (path : List Nat) (s c : Int)
    (h : (net.numSlots : Int) < s + c) : isSpectrumAvailable net path s c = false := by
  simp [isSpectrumAvailable, h]

theorem ffGo_some (avail : Nat → Bool) :
    ∀ (fuel s r : Nat), ffGo avail s fuel = some r →
      avail r = true ∧ s ≤ r ∧ r < s + fuel ∧ ∀ t, s ≤ t → t < r → avail t = false := by
  intro fuel
  induction fuel with
  | zero => intro s r h; simp [ffGo] at h
  | succ f ih =>
    intro s r h
    simp only [ffGo] at h
    by_cases ha : avail s = true
    · rw [if_pos ha] at h
      cases h
      exact ⟨ha, Nat.le_refl _, by omega, fun t h1 h2 => by omega⟩
    · rw [if_neg ha] at h
      obtain ⟨hr, h1, h2, h3⟩ := ih (s + 1) r h
      refine ⟨hr, by omega, by omega, fun t ht1 ht2 => ?_⟩
      by_cases hts : t = s
      · subst hts; exact Bool.not_eq_true _ |>.mp ha
      · exact h3 t (by omega) ht2

theorem ffGo_none (avail : Nat → Bool) :
    ∀ (fuel s : Nat), ffGo avail s fuel = none →
      ∀ t, s ≤ t → t < s + fuel → avail t = false := by
  intro fuel
  induction fuel with
  | zero => intro s h t h1 h2; omega
  | succ f ih =>
    intro s h t h1 h2
    simp only [ffGo] at h
    by_cases ha : avail s = true
    · rw [if_pos ha] at h; cases h
    · rw [if_neg ha] at h
      by_cases hts : t = s
      · subst hts; exact Bool.not_eq_true _ |>.mp ha
      · exact ih (s + 1) h t (by omega) (by omega)

theorem lastTrueFrom_none (arr : List Bool) :
    ∀ j, lastTrueFrom j arr = none ↔ ∀ i, i < arr.length → arr.getD i false = false := by
  induction arr with
  | nil => intro j; simp [lastTrueFrom]
  | cons b t ih =>
    intro j
    simp only [lastTrueFrom]
    cases htail : lastTrueFrom (j + 1) t with
    | some i =>
      simp only [reduceCtorEq, false_iff]
      intro hall
      have hnone : lastTrueFrom (j + 1) t = none := by
        rw [ih]
        intro i3 h3
        simpa using hall (i3 + 1) (by simpa using h3)
      rw [hnone] at htail
      cases htail
    | none =>
      constructor
      · intro h i hi
        cases i with
        | zero =>
          by_contra hb
          have hb2 : b = true := by simpa using hb
          rw [hb2] at h
          simp at h
        | succ i2 => simpa using (ih (j + 1)).mp htail i2 (by simpa using hi)
      · intro hall
        have h0 := hall 0 (by simp)
        simp only [List.getD_cons_zero] at h0
        rw [h0]
        simp

theorem lastTrueFrom_some (arr : List Bool) :
    ∀ j r, lastTrueFrom j arr = some r →
      ∃ off, off < arr.length ∧ r = j + off ∧ arr.getD off false = true ∧
        ∀ i, off < i → i < arr.length → arr.getD i false = false := by
  induction arr with
  | nil => intro j r h; simp [lastTrueFrom] at h
  | cons b t ih =>
    intro j r h
    simp only [lastTrueFrom] at h
    cases htail : lastTrueFrom (j + 1) t with
    | some i =>
      rw [htail] at h
      injection h with h5
      subst h5
      obtain ⟨off, h1, h2, h3, h4⟩ := ih (j + 1) i htail
      refine ⟨off + 1, by simpa using h1, by omega, by simpa using h3, ?_⟩
      intro i2 hi1 hi2
      cases i2 with
      | zero => omega
      | succ i3 => simpa using h4 i3 (by omega) (by simpa using hi2)
    | none =>
      rw [htail] at h
      have hb : b = true := by
        by_contra hb
        have hb2 : b = false := by simpa using hb
        rw [hb2] at h
        simp at h
      rw [hb] at h
      simp only [if_true, Option.some.injEq] at h
      refine ⟨0, by simp, by omega, by simp [hb], ?_⟩
      intro i2 hi1 hi2
      cases i2 with
      | zero => omega
      | succ i3 => simpa using (lastTrueFrom_none t (j + 1)).mp htail i3 (by simpa using hi2)

theorem watermark_foldl_spec (links : List (Nat × Nat)) (g : (Nat × Nat) → List Bool) :
    ∀ m0 : Nat,
      let M := links.foldl
        (fun m k =>
          match lastTrueIdx (g k) with
          | some i => max m (i + 1)
          | none => m) m0
      m0 ≤ M ∧
        (∀ k ∈ links, ∀ i, (g k).getD i false = true → i + 1 ≤ M) ∧
        (M = m0 ∨ ∃ k ∈ links, (g k).getD (M - 1) false = true) := by
  induction links with
  | nil => intro m0; exact ⟨Nat.le_refl _, by simp, Or.inl rfl⟩
  | cons kk t ih =>
    intro m0
    simp only [List.foldl_cons]
    cases hlast : lastTrueIdx (g kk) with
    | none =>
      obtain ⟨h1, h2, h3⟩ := ih m0
      refine ⟨h1, ?_, ?_⟩
      · intro k hk i hv
        rcases List.mem_cons.mp hk with hk | hk
        · subst hk
          have := (lastTrueFrom_none (g k) 0).mp hlast
          by_cases hi : i < (g k).length
          · rw [this i hi] at hv; cases hv
          · rw [List.getD_eq_default _ _ (by omega)] at hv; cases hv
        · exact h2 k hk i hv
      · rcases h3 with h3 | ⟨k, hk, hv⟩
        · exact Or.inl h3
        · exact Or.inr ⟨k, List.mem_cons_of_mem _ hk, hv⟩
    | some i =>
      obtain ⟨h1, h2, h3⟩ := ih (max m0 (i + 1))
      obtain ⟨off, ho1, ho2, ho3, ho4⟩ := lastTrueFrom_some (g kk) 0 i hlast
      refine ⟨le_trans (le_max_left _ _) h1, ?_, ?_⟩
      · intro k hk i2 hv
        rcases List.mem_cons.mp hk with hk | hk
        · subst hk
          have hle : i2 ≤ i := by
            by_contra hc
            push_neg at hc
            by_cases hlen : i2 < (g k).length
            · rw [ho4 i2 (by omega) hlen] at hv; cases hv
            · rw [List.getD_eq_default _ _ (by omega)] at hv; cases hv
          exact le_trans (Nat.succ_le_succ hle) (le_trans (le_max_right _ _) h1)
        · exact h2 k hk i2 hv
      · rcases h3 with h3 | ⟨k, hk, hv⟩
        · by_cases hc : i + 1 ≤ m0
          · left; rw [h3]; exact max_eq_left hc
          · right
            refine ⟨kk, List.mem_cons_self _ _, ?_⟩
            have hm : max m0 (i + 1) = i + 1 := max_eq_right (by omega)
            rw [h3, hm]
            simpa [ho2] using ho3
        · exact Or.inr ⟨k, List.mem_cons_of_mem _ hk, hv⟩

theorem getMaxWatermark_spec (net : Network) :
    (∀ k ∈ net.links, ∀ i, (net.spectrum k).getD i false = true →
        i + 1 ≤ getMaxWatermark net) ∧
      (getMaxWatermark net = 0 ∨
        ∃ k ∈ net.links, (net.spectrum k).getD (getMaxWatermark net - 1) false = true) := by
  have h := watermark_foldl_spec net.links net.spectrum 0
  exact ⟨h.2.1, h.2.2⟩

theorem vf_maxslot_foldl_spec (links : List (Nat × Nat)) (g : (Nat × Nat) → List Bool) :
    ∀ m0 : Int,
      let M := links.foldl
        (fun m k =>
          match lastTrueIdx (g k) with
          | some i => max m (i : Int)
          | none => m) m0
      m0 ≤ M ∧
        (∀ k ∈ links, ∀ i, (g k).getD i false = true → (i : Int) ≤ M) ∧
        (M = m0 ∨ ∃ k ∈ links, ∃ i : Nat, (i : Int) = M ∧ (g k).getD i false = true) := by
  induction links with
  | nil => intro m0; exact ⟨Int.le_refl _, by simp, Or.inl rfl⟩
  | cons kk t ih =>
    intro m0
    simp only [List.foldl_cons]
    cases hlast : lastTrueIdx (g kk) with
    | none =>
      obtain ⟨h1, h2, h3⟩ := ih m0
      refine ⟨h1, ?_, ?_⟩
      · intro k hk i hv
        rcases List.mem_cons.mp hk with hk | hk
        · subst hk
          have := (lastTrueFrom_none (g k) 0).mp hlast
          by_cases hi : i < (g k).length
          · rw [this i hi] at hv; cases hv
          · rw [List.getD_eq_default _ _ (by omega)] at hv; cases hv
        · exact h2 k hk i hv
      · rcases h3 with h3 | ⟨k, hk, hv⟩
        · exact Or.inl h3
        · exact Or.inr ⟨k, List.mem_cons_of_mem _ hk, hv⟩
    | some i =>
      obtain ⟨h1, h2, h3⟩ := ih (max m0 (i : Int))
      obtain ⟨off, ho1, ho2, ho3, ho4⟩ := lastTrueFrom_some (g kk) 0 i hlast
      refine ⟨le_trans (le_max_left _ _) h1, ?_, ?_⟩
      · intro k hk i2 hv
        rcases List.mem_cons.mp hk with hk | hk
        · subst hk
          have hle : i2 ≤ i := by
            by_contra hc
            push_neg at hc
            by_cases hlen : i2 < (g k).length
            · rw [ho4 i2 (by omega) hlen] at hv; cases hv
            · rw [List.getD_eq_default _ _ (by omega)] at hv; cases hv
          exact le_trans (by exact_mod_cast hle) (le_trans (le_max_right _ _) h1)
        · exact h2 k hk i2 hv
      · rcases h3 with h3 | ⟨k, hk, hv⟩
        · by_cases hc : (i : Int) ≤ m0
          · left; rw [h3]; exact max_eq_left hc
          · right
            refine ⟨kk, List.mem_cons_self _ _, i, ?_, ?_⟩
            · rw [h3]; exact (max_eq_right (le_of_not_le hc)).symm
            · simpa [ho2] using ho3
        · exact Or.inr ⟨k, List.mem_cons_of_mem _ hk, hv⟩

theorem kspMw_loop_spec (eval : List Nat → Option (Nat × Nat)) :
    ∀ (rest : List (List Nat)) (best : Option (List Nat × Nat × Nat))
      (processed : List (List Nat)),
      ((best = none → ∀ q ∈ processed, eval q = none) ∧
        (∀ p n w, best = some (p, n, w) →
          eval p = some (n, w) ∧
            (∀ q ∈ processed, ∀ v : Nat × Nat, eval q = some v → w ≤ v.2) ∧
            ∃ l1 l2, processed = l1 ++ p :: l2 ∧
              ∀ q ∈ l1, ∀ v : Nat × Nat, eval q = some v → w < v.2)) →
      ((rest.foldl (kspMwStep eval) best = none →
          ∀ q ∈ processed ++ rest, eval q = none) ∧
        (∀ p n w, rest.foldl (kspMwStep eval) best = some (p, n, w) →
          eval p = some (n, w) ∧
            (∀ q ∈ processed ++ rest, ∀ v : Nat × Nat, eval q = some v → w ≤ v.2) ∧
            ∃ l1 l2, processed ++ rest = l1 ++ p :: l2 ∧
              ∀ q ∈ l1, ∀ v : Nat × Nat, eval q = some v → w < v.2)) := by
  intro rest
  induction rest with
  | nil =>
    intro best processed hgood
    simpa using hgood
  | cons p0 t ih =>
    intro best processed hgood
    have hgood2 :
        (kspMwStep eval best p0 = none → ∀ q ∈ processed ++ [p0], eval q = none) ∧
          (∀ p n w, kspMwStep eval best p0 = some (p, n, w) →
            eval p = some (n, w) ∧
              (∀ q ∈ processed ++ [p0], ∀ v : Nat × Nat, eval q = some v → w ≤ v.2) ∧
              ∃ l1 l2, processed ++ [p0] = l1 ++ p :: l2 ∧
                ∀ q ∈ l1, ∀ v : Nat × Nat, eval q = some v → w < v.2) := by
      cases heval : eval p0 with
      | none =>
        simp only [kspMwStep, heval]
        constructor
        · intro hb q hq
          rcases List.mem_append.mp hq with hq | hq
          · exact hgood.1 hb q hq
          · rw [List.mem_singleton.mp hq]; exact heval
        · intro p n w hb
          obtain ⟨he, hmin, l1, l2, hsplit, hstrict⟩ := hgood.2 p n w hb
          refine ⟨he, ?_, l1, l2 ++ [p0], by rw [hsplit]; simp, hstrict⟩
          intro q hq v hv
          rcases List.mem_append.mp hq with hq | hq
          · exact hmin q hq v hv
          · rw [List.mem_singleton.mp hq] at hv
            rw [heval] at hv
            cases hv
      | some nw =>
        obtain ⟨n0, w0⟩ := nw
        cases best with
        | none =>
          simp only [kspMwStep, heval]
          constructor
          · intro hb; cases hb
          · intro p n w hb
            injection hb with hb2
            simp only [Prod.mk.injEq] at hb2
            obtain ⟨rfl, rfl, rfl⟩ := hb2
            refine ⟨heval, ?_, processed, [], by simp, ?_⟩
            · intro q hq v hv
              rcases List.mem_append.mp hq with hq | hq
              · rw [hgood.1 rfl q hq] at hv; cases hv
              · rw [List.mem_singleton.mp hq] at hv
                rw [heval] at hv
                injection hv with hv2
                rw [← hv2]
            · intro q hq v hv
              rw [hgood.1 rfl q hq] at hv
              cases hv
        | some b =>
          obtain ⟨bp, bn, bw⟩ := b
          obtain ⟨hbe, hbmin, bl1, bl2, hbsplit, hbstrict⟩ := hgood.2 bp bn bw rfl
          by_cases hlt : w0 < bw
          · simp only [kspMwStep, heval, if_pos hlt]
            constructor
            · intro hb; cases hb
            · intro p n w hb
              injection hb with hb2
              simp only [Prod.mk.injEq] at hb2
              obtain ⟨rfl, rfl, rfl⟩ := hb2
              refine ⟨heval, ?_, processed, [], by simp, ?_⟩
              · intro q hq v hv
                rcases List.mem_append.mp hq with hq | hq
                · exact le_of_lt (lt_of_lt_of_le hlt (hbmin q hq v hv))
                · rw [List.mem_singleton.mp hq] at hv
                  rw [heval] at hv
                  injection hv with hv2
                  rw [← hv2]
              · intro q hq v hv
                exact lt_of_lt_of_le hlt (hbmin q hq v hv)
          · simp only [kspMwStep, heval, if_neg hlt]
            constructor
            · intro hb; cases hb
            · intro p n w hb
              injection hb with hb2
              simp only [Prod.mk.injEq] at hb2
              obtain ⟨rfl, rfl, rfl⟩ := hb2
              refine ⟨hbe, ?_, bl1, bl2 ++ [p0], by rw [hbsplit]; simp, hbstrict⟩
              intro q hq v hv
              rcases List.mem_append.mp hq with hq | hq
              · exact hbmin q hq v hv
              · rw [List.mem_singleton.mp hq] at hv
                rw [heval] at hv
                injection hv with hv2
                rw [← hv2]
                omega
    have := ih (kspMwStep eval best p0) (processed ++ [p0]) hgood2
    simpa [List.append_assoc] using this

theorem pyIdx_natCast (L s : Nat) : pyIdx L ((s : Nat) : Int) = min s L := by
  simp [pyIdx]

/-! ### Claim theorems -/

/-- C4: for every grid state, path and slot count ≥ 1, `first_fit` returns the
smallest start index at which `is_spectrum_available` holds (in particular the
returned start is within `[0, width - count]` and available, and every smaller
start is unavailable), and returns `None` exactly when no start is available —
in particular whenever `count` exceeds the grid width. -/
theorem c4_first_fit_correct (net : Network) (path : List Nat) (count : Nat)
    (_hc : 1 ≤ count) :
    (∀ s, first_fit net path count = some s →
        isSpectrumAvailable net path (s : Int) (count : Int) = true ∧
        (s : Int) + (count : Int) ≤ (net.numSlots : Int) ∧
        ∀ t : Nat, t < s → isSpectrumAvailable net path (t : Int) (count : Int) = false) ∧
    (first_fit net path count = none →
        ∀ t : Nat, isSpectrumAvailable net path (t : Int) (count : Int) = false) ∧
    (net.numSlots < count → first_fit net path count = none) := by
  refine ⟨?_, ?_, ?_⟩
  · intro s h
    obtain ⟨ha, _, hlt, hmin⟩ := ffGo_some _ _ _ _ h
    refine ⟨ha, by omega, fun t ht => hmin t (Nat.zero_le t) ht⟩
  · intro h t
    by_cases ht : t < ((net.numSlots : Int) - count + 1).toNat
    · exact ffGo_none _ _ _ h t (Nat.zero_le t) (by omega)
    · exact isSpectrumAvailable_bound net path t count (by omega)
  · intro h
    have hz : ((net.numSlots : Int) - count + 1).toNat = 0 := by omega
    simp [first_fit, hz, ffGo]

/-- Witness for C4 at a concrete grid: the block of 2 slots on the empty
6-slot grid is placed at start 0, which is available and preceded by no
smaller start. -/
theorem c4_witness :
    isSpectrumAvailable exNetC3 [0, 1] ((0 : Nat) : Int) ((2 : Nat) : Int) = true ∧
    ((0 : Nat) : Int) + ((2 : Nat) : Int) ≤ (exNetC3.numSlots : Int) ∧
    ∀ t : Nat, t < 0 → isSpectrumAvailable exNetC3 [0, 1] (t : Int) ((2 : Nat) : Int) = false :=
  (c4_first_fit_correct exNetC3 [0, 1] 2 (by decide)).1 0 (by decide)

/-- C10: the availability and allocation primitives do not reject negative
start slots: on a fully occupied 4-slot grid, `start_slot = -2` with
`num_slots = 2` (an empty Python slice) passes `is_spectrum_available`, and
`allocate_spectrum` reports success while leaving every link's occupancy array
unchanged. -/
theorem c10_negative_start_ghost_allocation :
    ((-2 : Int) < 0) ∧
    isSpectrumAvailable exNetC10 [0, 1] (-2) 2 = true ∧
    (allocateSpectrum exNetC10 [0, 1] (-2) 2).1 = true ∧
    ∀ k, (allocateSpectrum exNetC10 [0, 1] (-2) 2).2.spectrum k = exNetC10.spectrum k := by
  have havail : isSpectrumAvailable exNetC10 [0, 1] (-2) 2 = true := by decide
  refine ⟨by norm_num, havail, by decide, ?_⟩
  intro k
  simp only [allocateSpectrum, if_pos havail]
  rw [writeRange_spectrum]
  split
  · rename_i hmem
    have hk : k = (0, 1) := by simpa [pathLinks, linkKey] using hmem
    subst hk
    decide
  · rfl

/-- C5 (amended): `Network.allocate_spectrum` of src/src/core/network.py is
atomic check-then-act — on an unavailable block it returns `false` and the
grid is returned unchanged, on an available block it returns `true` and marks
exactly `[start, start+count)` on every link of the path; `Network.allocate`
of src/version_final/core.py, by contrast, performs no availability check and
unconditionally writes the slice of every directed traversal step. -/
theorem c5_allocate_atomic :
    (∀ (net : Network) (path : List Nat) (s c : Int),
        isSpectrumAvailable net path s c = false →
          allocateSpectrum net path s c = (false, net)) ∧
    (∀ (net : Network) (path : List Nat) (s c : Int),
        isSpectrumAvailable net path s c = true →
          (allocateSpectrum net path s c).1 = true ∧
            ∀ k, (allocateSpectrum net path s c).2.spectrum k =
              if k ∈ pathLinks path then pySetSlice (net.spectrum k) s (s + c) true
              else net.spectrum k) ∧
    (∀ (vn : VFNetwork) (path : List Nat) (s c : Int) (k : Nat × Nat),
        (VFNetwork.allocate vn path s c).spectrum k =
          if k ∈ path.zip path.tail then pySetSlice (vn.spectrum k) s (s + c) true
          else vn.spectrum k) := by
  refine ⟨?_, ?_, ?_⟩
  · intro net path s c h
    simp [allocateSpectrum, h]
  · intro net path s c h
    refine ⟨by simp [allocateSpectrum, h], ?_⟩
    intro k
    simp only [allocateSpectrum, if_pos h]
    exact writeRange_spectrum net path s (s + c) true k
  · exact vfAllocate_spectrum

/-- Witness for C5 at a concrete grid: slot 0 of the only link is occupied,
so the allocation fails and returns the grid unchanged. -/
theorem c5_witness : allocateSpectrum exNetC6 [0, 1] 0 1 = (false, exNetC6) :=
  c5_allocate_atomic.1 exNetC6 [0, 1] 0 1 (by decide)

/-- Counterexample for C5 as stated: version_final's `allocate` mutates the
grid even though the block is unavailable (slot 0 already occupied), and
performs no check. -/
theorem c5_counterexample :
    VFNetwork.isPathFree exVF [0, 1] 0 2 = false ∧
    (VFNetwork.allocate exVF [0, 1] 0 2).spectrum (0, 1) = [true, true] ∧
    exVF.spectrum (0, 1) = [true, false] := by decide

/-- C6 (amended): when the allocation succeeds (the block is available),
`allocate_spectrum` immediately followed by `deallocate_spectrum` on the same
(path, start, count) restores every link's occupancy array exactly. -/
theorem c6_roundtrip (net : Network) (path : List Nat) (s c : Int)
    (h : isSpectrumAvailable net path s c = true) :
    ∀ k, (deallocateSpectrum (allocateSpectrum net path s c).2 path s c).spectrum k =
      net.spectrum k := by
  intro k
  obtain ⟨hbound, hfree⟩ := (isSpectrumAvailable_eq_true net path s c).mp h
  simp only [allocateSpectrum, if_pos h, deallocateSpectrum]
  by_cases hmem : k ∈ pathLinks path
  · rw [writeRange_spectrum, if_pos hmem, writeRange_spectrum, if_pos hmem]
    exact pySetSlice_cancel _ _ _ ((pyAnySlice_eq_false _ _ _).mp (hfree k hmem))
  · rw [writeRange_spectrum, if_neg hmem, writeRange_spectrum, if_neg hmem]

/-- Witness for C6 at a concrete grid: allocating 2 slots on the empty 6-slot
grid and deallocating them restores the link's array. -/
theorem c6_witness :
    (deallocateSpectrum (allocateSpectrum exNetC3 [0, 1] 0 2).2 [0, 1] 0 2).spectrum (0, 1)
      = exNetC3.spectrum (0, 1) :=
  c6_roundtrip exNetC3 [0, 1] 0 2 (by decide) (0, 1)

/-- Counterexample for C6 as stated ("for any prior occupancy"): when the
block is unavailable, `allocate_spectrum` fails without mutation but
`deallocate_spectrum` clears the range unconditionally, erasing occupancy that
was there before the pair of calls. -/
theorem c6_counterexample :
    (allocateSpectrum exNetC6 [0, 1] 0 1).1 = false ∧
    exNetC6.spectrum (0, 1) = [true, false] ∧
    (deallocateSpectrum (allocateSpectrum exNetC6 [0, 1] 0 1).2 [0, 1] 0 1).spectrum (0, 1)
      = [false, false] := by decide

/-- C7 (amended): `get_max_watermark` of src/src/core/network.py returns
1 + the highest occupied slot index over all links (0 when the grid is empty):
every occupied index `i` satisfies `i + 1 ≤ watermark`, and a nonzero
watermark is witnessed by an occupied slot at index `watermark - 1`.
`get_max_slot_used` of src/version_final/core.py instead returns the highest
occupied index itself, `-1` when the grid is empty. -/
theorem c7_watermark (net : Network) (vn : VFNetwork) :
    ((∀ k ∈ net.links, ∀ i, (net.spectrum k).getD i false = true →
        i + 1 ≤ getMaxWatermark net) ∧
      (getMaxWatermark net = 0 ∨
        ∃ k ∈ net.links, (net.spectrum k).getD (getMaxWatermark net - 1) false = true)) ∧
    ((∀ k ∈ vn.dlinks, ∀ i, (vn.spectrum k).getD i false = true →
        (i : Int) ≤ VFNetwork.getMaxSlotUsed vn) ∧
      (VFNetwork.getMaxSlotUsed vn = -1 ∨
        ∃ k ∈ vn.dlinks, ∃ i : Nat, (i : Int) = VFNetwork.getMaxSlotUsed vn ∧
          (vn.spectrum k).getD i false = true)) := by
  constructor
  · exact getMaxWatermark_spec net
  · have h := vf_maxslot_foldl_spec vn.dlinks vn.spectrum (-1)
    exact ⟨h.2.1, h.2.2⟩

/-- Witness for C7 at concrete grids: slot 0 occupied forces watermark ≥ 1 in
the core Network and max-slot-used ≥ 0 in the version_final Network. -/
theorem c7_witness :
    (0 : Nat) + 1 ≤ getMaxWatermark exNetC6 ∧
      ((0 : Nat) : Int) ≤ VFNetwork.getMaxSlotUsed exVF :=
  ⟨(c7_watermark exNetC6 exVF).1.1 (0, 1) (by decide) 0 (by decide),
    (c7_watermark exNetC6 exVF).2.1 (0, 1) (by decide) 0 (by decide)⟩

/-- Counterexample for C7 as stated: in the version_final Network the highest
occupied index is 0 but the query returns 0 (not 0 + 1), and on an empty grid
it returns -1 (not 0). -/
theorem c7_counterexample :
    (exVF.spectrum (0, 1)).getD 0 false = true ∧
    VFNetwork.getMaxSlotUsed exVF = 0 ∧
    VFNetwork.getMaxSlotUsed exVFempty = -1 := by decide

/-- C8 (amended): in the src/src core Network the link key is normalized, so
availability is identical in both traversal directions, and after a successful
allocation across `u → v` any path crossing the same link as `v → u` finds
every overlapping range (witnessed by a common slot `j`) unavailable.  (In
version_final's Network the two directions have separate arrays; see the
counterexample.)  `hlen` is the grid invariant that the link's array has the
grid width. -/
theorem c8_undirected_link (net : Network) (u v : Nat) (s c : Nat) (_hc : 1 ≤ c)
    (hlen : (net.spectrum (linkKey u v)).length = net.numSlots) :
    (isSpectrumAvailable net [u, v] (s : Int) (c : Int) =
        isSpectrumAvailable net [v, u] (s : Int) (c : Int)) ∧
    ((allocateSpectrum net [u, v] (s : Int) (c : Int)).1 = true →
      ∀ P : List Nat, (v, u) ∈ P.zip P.tail →
        ∀ s2 c2 j : Nat, s ≤ j → j < s + c → s2 ≤ j → j < s2 + c2 →
          isSpectrumAvailable (allocateSpectrum net [u, v] (s : Int) (c : Int)).2 P
            (s2 : Int) (c2 : Int) = false) := by
  have hsym : linkKey v u = linkKey u v := by
    simp [linkKey, Nat.min_comm, Nat.max_comm]
  constructor
  · simp [isSpectrumAvailable, pathLinks, hsym]
  · intro hsucc P hmem s2 c2 j hj1 hj2 hj3 hj4
    have havail : isSpectrumAvailable net [u, v] (s : Int) (c : Int) = true := by
      by_contra h2
      rw [Bool.not_eq_true] at h2
      rw [allocateSpectrum, if_neg (by simp [h2])] at hsucc
      simp at hsucc
    obtain ⟨hbound, _⟩ := (isSpectrumAvailable_eq_true _ _ _ _).mp havail
    have hscW : s + c ≤ net.numSlots := by exact_mod_cast hbound
    simp only [allocateSpectrum, if_pos havail]
    rw [← Bool.not_eq_true, isSpectrumAvailable_eq_true]
    rintro ⟨hb2, hall⟩
    have hkey : linkKey v u ∈ pathLinks P := List.mem_map.mpr ⟨(v, u), hmem, rfl⟩
    have hfree := hall (linkKey v u) hkey
    rw [hsym, writeRange_spectrum, if_pos (by simp [pathLinks] : linkKey u v ∈ pathLinks [u, v])]
      at hfree
    have hcast1 : (s : Int) + (c : Int) = ((s + c : Nat) : Int) := by push_cast; ring
    have hcast2 : (s2 : Int) + (c2 : Int) = ((s2 + c2 : Nat) : Int) := by push_cast; ring
    have hlen2 : (pySetSlice (net.spectrum (linkKey u v)) (s : Int)
        ((s : Int) + (c : Int)) true).length = net.numSlots := by
      rw [pySetSlice_length]; exact hlen
    have hjlen : j < net.numSlots := by omega
    have hoccJ : (pySetSlice (net.spectrum (linkKey u v)) (s : Int)
        ((s : Int) + (c : Int)) true).getD j false = true := by
      rw [pySetSlice_getD, if_pos]
      refine ⟨by omega, ?_, ?_⟩
      · rw [pyIdx_natCast, hlen]
        exact le_trans (min_le_left _ _) hj1
      · rw [hcast1, pyIdx_natCast, hlen]
        exact lt_min hj2 hjlen
    have hfreeJ := (pyAnySlice_eq_false _ _ _).mp hfree j (by omega) ?_ ?_
    · rw [hoccJ] at hfreeJ
      cases hfreeJ
    · rw [hlen2, pyIdx_natCast]
      exact le_trans (min_le_left _ _) hj3
    · rw [hlen2, hcast2, pyIdx_natCast]
      exact lt_min hj4 hjlen

/-- Witness for C8 at a concrete grid: allocating slots 0-1 of the empty
6-slot grid across 0 → 1 makes the overlapping range starting at slot 1
unavailable to the reverse path 1 → 0. -/
theorem c8_witness :
    isSpectrumAvailable (allocateSpectrum exNetC3 [0, 1] ((0 : Nat) : Int)
      ((2 : Nat) : Int)).2 [1, 0] ((1 : Nat) : Int) ((2 : Nat) : Int) = false :=
  (c8_undirected_link exNetC3 0 1 0 2 (by decide) (by decide)).2 (by decide) [1, 0]
    (by decide) 1 2 1 (by decide) (by decide) (by decide) (by decide)

/-- Counterexample for C8 as stated: in version_final's Network, allocating
slot 0 across the directed step 0 → 1 leaves the very same slot range
available to a path traversing the same edge as 1 → 0, because each direction
owns a separate occupancy array. -/
theorem c8_counterexample :
    (VFNetwork.allocate exVFempty [0, 1] 0 1).spectrum (0, 1) = [true, false] ∧
    (VFNetwork.allocate exVFempty [0, 1] 0 1).isPathFree [1, 0] 0 1 = true := by decide

/-- C3: whenever `ksp_mw_assign` assigns a path, that path's resulting
watermark equals `max(current grid watermark, First-Fit start + slot count)`,
it is ≤ the resulting watermark of every other feasible candidate evaluated in
the same call, and every candidate strictly earlier in ranked order was
infeasible or strictly worse (so among the minimizers the earliest is
chosen). -/
theorem c3_ksp_mw_min_watermark (net : Network) (edgeDist : Nat → Nat → Nat) (bw : Nat)
    (paths : List (List Nat)) (r : MwAssignment)
    (h : (ksp_mw_assign net edgeDist bw paths).1 = some r) :
    kspMwEval net edgeDist bw r.path = some (r.num_slots, r.watermark) ∧
    first_fit net r.path r.num_slots = some r.start_slot ∧
    r.watermark = max (getMaxWatermark net) (r.start_slot + r.num_slots) ∧
    (∀ q ∈ paths, ∀ v : Nat × Nat, kspMwEval net edgeDist bw q = some v →
        r.watermark ≤ v.2) ∧
    ∃ l1 l2, paths = l1 ++ r.path :: l2 ∧
      ∀ q ∈ l1, ∀ v : Nat × Nat, kspMwEval net edgeDist bw q = some v →
        r.watermark < v.2 := by
  rcases hps : paths with _ | ⟨p0, pt⟩
  · rw [hps] at h
    simp [ksp_mw_assign] at h
  · rw [hps] at h
    rcases hsel : kspMwSelect net edgeDist bw (p0 :: pt) with _ | ⟨p, n, w⟩
    · simp [ksp_mw_assign, hsel] at h
    · rcases hff : first_fit net p n with _ | s
      · simp [ksp_mw_assign, hsel, hff] at h
      · have hav : isSpectrumAvailable net p (s : Int) (n : Int) = true :=
          (ffGo_some _ _ _ _ hff).1
        simp only [ksp_mw_assign, List.isEmpty_cons, Bool.false_eq_true, if_false, hsel,
          hff, allocateSpectrum, hav, if_true, Option.some.injEq] at h
        subst h
        have hloop := kspMw_loop_spec (kspMwEval net edgeDist bw) (p0 :: pt) none []
          ⟨fun _ q hq => absurd hq (List.not_mem_nil q), fun p2 n2 w2 hb => by cases hb⟩
        obtain ⟨heval, hmin, l1, l2, hsplit, hstrict⟩ := hloop.2 p n w hsel
        have hw : w = max (getMaxWatermark net) (s + n) := by
          simp only [kspMwEval] at heval
          rcases hcrs : calculate_required_slots bw (get_path_distance edgeDist p)
            with _ | ⟨n2, name⟩
          · simp [hcrs] at heval
          · simp only [hcrs] at heval
            rcases hwm : calculate_watermark_increment net p n2 with _ | w2
            · simp [hwm] at heval
            · simp only [hwm, Option.some.injEq, Prod.mk.injEq] at heval
              obtain ⟨rfl, rfl⟩ := heval
              rw [calculate_watermark_increment, hff] at hwm
              simp at hwm
              exact hwm.symm
        refine ⟨heval, hff, hw, by simpa using hmin, l1, l2, by simpa using hsplit, hstrict⟩

/-- Witness for C3 at a concrete call: on the empty 6-slot triangle grid with
candidates `[0,2]` and `[0,1,2]` (both needing 4 slots, both reaching
watermark 4), the first candidate `[0,2]` is chosen with watermark 4, which is
minimal, and no earlier candidate exists. -/
theorem c3_witness :
    kspMwEval exNetC3 (fun _ _ => 100) 100 [0, 2] = some (4, 4) ∧
    first_fit exNetC3 [0, 2] 4 = some 0 ∧
    (4 : Nat) = max (getMaxWatermark exNetC3) (0 + 4) ∧
    (∀ q ∈ [[0, 2], [0, 1, 2]], ∀ v : Nat × Nat,
        kspMwEval exNetC3 (fun _ _ => 100) 100 q = some v → (4 : Nat) ≤ v.2) ∧
    ∃ l1 l2, [[0, 2], [0, 1, 2]] = l1 ++ [0, 2] :: l2 ∧
      ∀ q ∈ l1, ∀ v : Nat × Nat,
        kspMwEval exNetC3 (fun _ _ => 100) 100 q = some v → (4 : Nat) < v.2 :=
  c3_ksp_mw_min_watermark exNetC3 (fun _ _ => 100) 100 [[0, 2], [0, 1, 2]]
    ⟨[0, 2], 0, 4, 4⟩ (by decide)

/-- C2 (amended): `_neighbor_swap_assignments` either leaves the solution
untouched or commits a swap whose two availability checks against the scratch
grid both passed; `_neighbor_change_route` either leaves the solution
untouched, or leaves the selected demand unassigned (None), or assigns it to
the newly chosen path; `_neighbor_reassign` always unassigns the selected
demand and then either leaves it unassigned or assigns it to the chosen
candidate path.  (The claim's "infeasible attempts leave the solution exactly
as it was" fails for change-route and reassign: see the counterexample.) -/
theorem c2_neighbor_operators :
    (∀ (net : Network) (sol : Solution) (p1 p2 : Nat),
        neighborSwapAssignments net sol p1 p2 = sol ∨
          (swapOk net sol (swapChosen sol p1 p2).1 (swapChosen sol p1 p2).2 = true ∧
            neighborSwapAssignments net sol p1 p2 =
              swapCommit sol (swapChosen sol p1 p2).1 (swapChosen sol p1 p2).2)) ∧
    (∀ (net : Network) (edgeDist : Nat → Nat → Nat) (cand : Nat → List (List Nat))
        (demands : List Demand) (sol : Solution) (r1 r2 : Nat),
        neighborChangeRoute net edgeDist cand demands sol r1 r2 = sol ∨
          neighborChangeRoute net edgeDist cand demands sol r1 r2 =
            setAssignment sol (crIdx sol r1) none ∨
          ∃ s n : Nat,
            neighborChangeRoute net edgeDist cand demands sol r1 r2 =
              setAssignment (setAssignment sol (crIdx sol r1) none) (crIdx sol r1)
                (some ⟨crIdx sol r1, crNewPath cand sol r1 r2, (s : Int), (n : Int)⟩)) ∧
    (∀ (net : Network) (edgeDist : Nat → Nat → Nat) (cand : Nat → List (List Nat))
        (demands : List Demand) (sol : Solution) (r1 r2 : Nat),
        neighborReassign net edgeDist cand demands sol r1 r2 =
            setAssignment sol (r1 % demands.length) none ∨
          ∃ (path : List Nat) (s n : Nat),
            neighborReassign net edgeDist cand demands sol r1 r2 =
              setAssignment (setAssignment sol (r1 % demands.length) none)
                (r1 % demands.length)
                (some ⟨r1 % demands.length, path, (s : Int), (n : Int)⟩)) := by
  refine ⟨?_, ?_, ?_⟩
  · intro net sol p1 p2
    simp only [neighborSwapAssignments]
    split
    · exact Or.inl rfl
    · split
      · rename_i a1 a2 hga
        split
        · exact Or.inl rfl
        · split
          · rename_i hok
            exact Or.inr ⟨hok, rfl⟩
          · exact Or.inl rfl
      · exact Or.inl rfl
  · intro net edgeDist cand demands sol r1 r2
    simp only [neighborChangeRoute]
    split
    · exact Or.inl rfl
    · split
      · exact Or.inl rfl
      · split
        · exact Or.inl rfl
        · rename_i a hga
          split
          · exact Or.inl rfl
          · split
            · exact Or.inr (Or.inl rfl)
            · rename_i n hn
              split
              · exact Or.inr (Or.inl rfl)
              · rename_i s hs
                refine Or.inr (Or.inr ⟨s, n, ?_⟩)
                have hnp : crNewPath cand sol r1 r2 =
                    ((cand (crIdx sol r1)).filter fun p => p ≠ a.path).getD
                      (r2 % ((cand (crIdx sol r1)).filter fun p => p ≠ a.path).length) [] := by
                  simp only [crNewPath]
                  rw [show sol.assignments.getD (crIdx sol r1) none = some a from hga]
                rw [hnp]
                rfl
  · intro net edgeDist cand demands sol r1 r2
    simp only [neighborReassign]
    split
    · exact Or.inl rfl
    · split
      · exact Or.inl rfl
      · split
        · exact Or.inl rfl
        · exact Or.inr ⟨_, _, _, rfl⟩

/-- Counterexample for C2 as stated: on the triangle grid, demand 0 is
assigned on the direct path `[0, 2]`; change-route picks the only other
candidate `[0, 1, 2]`, whose 6000 km distance exceeds every modulation reach,
so the move is infeasible — yet the operator leaves the demand unassigned
(None) instead of leaving the solution unchanged. -/
theorem c2_counterexample :
    exSolC2.assignments.getD 0 none = some ⟨0, [0, 2], 0, 4⟩ ∧
    (neighborChangeRoute exNetC2 exEdgeDistC2 exCandC2 exDemandsC2 exSolC2 0 0).assignments.getD
      0 none = none := by decide

/-- C1 (code evaluated at the failing input): `exSolA` is valid (no validation
errors) and incomplete (1 of 2 demands assigned), yet its fitness is infinite
— `float('inf') - assigned_count` is still infinity — and it equals the
fitness of the strictly-less-assigned `exSolB`, so the penalty is neither
finite nor strictly decreasing in the assigned count. -/
theorem c1_incomplete_fitness_infinite :
    validate exSolA = [] ∧
    assignedCount exSolA.assignments = 1 ∧
    exSolA.demands.length = 2 ∧
    calculate_fitness exSolA = PyFloat.inf ∧
    validate exSolB = [] ∧
    assignedCount exSolB.assignments = 0 ∧
    calculate_fitness exSolB = calculate_fitness exSolA := by decide

/-- C9 (code evaluated at the failing input): the ordering-variant
`GeneticOptimizer.optimize` with `generations = 0` reaches the final replay
with `best_chrome` still `None` — for every topology, demand list, population
size and random stream — and raises `TypeError` instead of returning the
seeded initial best. -/
theorem c9_ga_gen0_crashes :
    ∀ (edgeDist : Nat → Nat → Nat) (cache : Nat × Nat → List (List Nat))
      (demands : List Demand) (popSize : Nat) (choice : Nat → MutChoice),
      gaOptimizeGen0 edgeDist cache demands popSize choice =
        Except.error "TypeError: NoneType object is not iterable" :=
  fun _ _ _ _ _ => rfl

end RMLSA
